import Mathlib

/-!
Shallow embedding of the funding-rate arbitrage strategy
(`pkg/strategy/funding_rate_arb.go` of basel-ax/perp-dex-funding-rate-arb-bot)
together with proofs of the spec's claims about it.

Modelling conventions:
* Go `float64` values (rates, USD sizes, prices, amounts) are modelled as `ℚ`;
  all the claims are about comparisons and exact arithmetic on these values.
* A Go `map[string]V` is modelled as an association list `List (String × V)`
  with last-write-wins assignment (`setAssoc`), key deletion (`delAssoc`) and
  lookup (`getAssoc`).
* Venue network calls (`PlaceOrder`, `ClosePosition`) are modelled by an
  environment `Env` of oracles answering each call, and the outward-visible
  effects of a run (orders placed, close calls issued, notifications sent)
  are collected in an event trace `List Event`.
* Logging is pure observation and is not modelled.
-/

namespace FundingArb

/-- Venue handle: the Go code stores `exchange.Exchange` interface values and
compares them by `Name()`; we keep the name as the handle's only datum while
still treating the handle as a value (as the Go code does). -/
structure Venue where
  name : String
deriving DecidableEq

/-- Order side, from `pkg/exchange/exchange.go` (`Buy`/`Sell`). -/
inductive OrderSide where
  | buy
  | sell
deriving DecidableEq

/-- Order type, from `pkg/exchange/exchange.go` (`Limit`/`Market`). -/
inductive OrderType where
  | limit
  | market
deriving DecidableEq

/-- Order acknowledgement, from `pkg/exchange/exchange.go`; the strategy treats
it as opaque (only the ID is logged). -/
structure Order where
  id : String
  orderMarket : String
  side : OrderSide
  orderType : OrderType
  price : ℚ
  amount : ℚ
  filled : ℚ
  status : String
  timestamp : Int
deriving DecidableEq

/-- Funding rate record, from `pkg/exchange/exchange.go`. -/
structure FundingRate where
  market : String
  rate : ℚ
  nextTime : Int
deriving DecidableEq

/-- The configuration fields consumed by the strategy core,
from `config/config.go` (API keys and other I/O-only fields elided). -/
structure Config where
  testnet : Bool
  markets : List String
  minFundingRateDiff : ℚ
  positionSizeUSD : ℚ
  maxPositionUSD : ℚ
deriving DecidableEq

/-- `PositionInfo` from `pkg/strategy/funding_rate_arb.go`. -/
structure PositionInfo where
  market : String
  longExchange : Venue
  shortExchange : Venue
  sizeUSD : ℚ
deriving DecidableEq

/-- The strategy state: configuration, the two wired venues and the position
ledger (`positions map[string]*PositionInfo` in the Go code).  The logger, the
notifier handle and the mutex carry no modelled state. -/
structure Strategy where
  config : Config
  exchange1 : Venue
  exchange2 : Venue
  positions : List (String × PositionInfo)
deriving DecidableEq

/-- Association-list lookup, modelling Go `v, ok := m[k]`. -/
def getAssoc {α : Type} (k : String) : List (String × α) → Option α
  | [] => none
  | (k2, v) :: rest => if k2 = k then some v else getAssoc k rest

/-- Association-list assignment, modelling Go `m[k] = v` (replaces the binding
if the key is present, appends it otherwise). -/
def setAssoc {α : Type} (k : String) (v : α) : List (String × α) → List (String × α)
  | [] => [(k, v)]
  | (k2, w) :: rest => if k2 = k then (k, v) :: rest else (k2, w) :: setAssoc k v rest

/-- Association-list deletion, modelling Go `delete(m, k)`. -/
def delAssoc {α : Type} (k : String) : List (String × α) → List (String × α)
  | [] => []
  | (k2, w) :: rest => if k2 = k then rest else (k2, w) :: delAssoc k rest

/-- Outward-visible effects of a strategy run: order placements, position
closes, and notifications (`SendPositionNotification`, whose last field is
whether the reported call succeeded). -/
inductive Event where
  | placeOrder (venue : Venue) (market : String) (side : OrderSide)
      (amount price : ℚ)
  | closePosition (venue : Venue) (market : String) (side : OrderSide)
      (amount : ℚ)
  | notify (action : String) (venueName : String) (market : String)
      (sizeUSD : ℚ) (ok : Bool)
deriving DecidableEq

/-- Whether an event is an order placement (an *open* order). -/
def isPlaceOrderEvent : Event → Bool
  | .placeOrder _ _ _ _ _ => true
  | _ => false

/-- Environment of oracles answering the venue network calls the strategy
issues: `PlaceOrder(market, side, type, amount, price)` and
`ClosePosition(market, side, amount)`, each keyed additionally by the venue
handle the call is made through. -/
structure Env where
  placeOrder : Venue → String → OrderSide → OrderType → ℚ → ℚ → Except String Order
  closePosition : Venue → String → OrderSide → ℚ → Except String Order

/-- Whether an `Except` result is a success. -/
def exceptOk {ε α : Type} : Except ε α → Bool
  | .ok _ => true
  | .error _ => false

/-- `NewFundingRateArb`: fresh strategy with an empty ledger. -/
def newFundingRateArb (cfg : Config) (ex1 ex2 : Venue) : Strategy :=
  { config := cfg, exchange1 := ex1, exchange2 := ex2, positions := [] }

/-- `getTotalPositionValue`: sum of `SizeUSD` over all ledger entries. -/
def sumSizes : List (String × PositionInfo) → ℚ
  | [] => 0
  | (_, v) :: rest => v.sizeUSD + sumSizes rest

/-- `getTotalPositionValue` on a strategy state. -/
def getTotalPositionValue (s : Strategy) : ℚ :=
  sumSizes s.positions

/-- The hard-coded per-market reference price used by both `executeArbitrage`
and `closeArbitrage`: 60000 for BTC-USD, 3000 for ETH-USD, unavailable
otherwise. -/
def placeholderPrice (market : String) : Option ℚ :=
  if market = "BTC-USD" then some 60000
  else if market = "ETH-USD" then some 3000
  else none

/-- `executeArbitrage`: the opening sequence.  Mirrors the Go code line by
line: duplicate-open guard, exposure-cap guard, reference-price resolution,
long leg, short leg, ledger insertion only after both legs succeed.  Returns
the new state and the trace of calls/notifications issued. -/
def executeArbitrage (s : Strategy) (env : Env) (market : String)
    (longEx shortEx : Venue) (rateDiff : ℚ) : Strategy × List Event :=
  match getAssoc market s.positions with
  | some _ => (s, [])
  | none =>
    if getTotalPositionValue s + s.config.positionSizeUSD > s.config.maxPositionUSD then
      (s, [])
    else
      match placeholderPrice market with
      | none => (s, [])
      | some currentPrice =>
        let amount := s.config.positionSizeUSD / currentPrice
        let longRes := env.placeOrder longEx market .buy .market amount currentPrice
        let longEvents := [Event.placeOrder longEx market .buy amount currentPrice,
          Event.notify "OPEN LONG" longEx.name market s.config.positionSizeUSD (exceptOk longRes)]
        match longRes with
        | .error _ => (s, longEvents)
        | .ok _ =>
          let shortRes := env.placeOrder shortEx market .sell .market amount currentPrice
          let allEvents := longEvents ++
            [Event.placeOrder shortEx market .sell amount currentPrice,
             Event.notify "OPEN SHORT" shortEx.name market s.config.positionSizeUSD (exceptOk shortRes)]
          match shortRes with
          | .error _ => (s, allEvents)
          | .ok _ =>
            let newPos := PositionInfo.mk market longEx shortEx s.config.positionSizeUSD
            ({ s with positions := setAssoc market newPos s.positions }, allEvents)

/-- `closeArbitrage`: the closing sequence.  Mirrors the Go code: re-check the
entry still exists, remove it from the ledger immediately, resolve the
reference price (aborting with the entry already removed if unavailable), then
attempt both legs' closes independently of each other's outcome. -/
def closeArbitrage (s : Strategy) (env : Env) (position : PositionInfo) :
    Strategy × List Event :=
  match getAssoc position.market s.positions with
  | none => (s, [])
  | some _ =>
    let s2 : Strategy := { s with positions := delAssoc position.market s.positions }
    match placeholderPrice position.market with
    | none => (s2, [])
    | some currentPrice =>
      let amount := position.sizeUSD / currentPrice
      let longCloseRes := env.closePosition position.longExchange position.market .buy amount
      let shortCloseRes := env.closePosition position.shortExchange position.market .sell amount
      (s2,
       [Event.closePosition position.longExchange position.market .buy amount,
        Event.notify "CLOSE LONG" position.longExchange.name position.market
          position.sizeUSD (exceptOk longCloseRes),
        Event.closePosition position.shortExchange position.market .sell amount,
        Event.notify "CLOSE SHORT" position.shortExchange.name position.market
          position.sizeUSD (exceptOk shortCloseRes)])

/-- One iteration of the per-market loop body of `checkFundingRates`: skip if
the market is missing from either rate lookup, otherwise open (by rate-diff
sign) when no position exists and `|diff|` strictly exceeds the threshold, or
close when a position exists and the differential is no longer favorable for
the venue holding the short leg. -/
def processMarket (s : Strategy) (env : Env)
    (rates1Map rates2Map : List (String × ℚ)) (market : String) :
    Strategy × List Event :=
  match getAssoc market rates1Map, getAssoc market rates2Map with
  | some rate1, some rate2 =>
    let diff := rate1 - rate2
    match getAssoc market s.positions with
    | none =>
      if |diff| > s.config.minFundingRateDiff then
        if diff > 0 then
          executeArbitrage s env market s.exchange2 s.exchange1 diff
        else
          executeArbitrage s env market s.exchange1 s.exchange2 (-diff)
      else (s, [])
    | some position =>
      if (position.shortExchange.name = s.exchange1.name ∧ diff ≤ 0) ∨
         (position.shortExchange.name = s.exchange2.name ∧ diff ≥ 0) then
        closeArbitrage s env position
      else (s, [])
  | _, _ => (s, [])

/-- Build a market→rate lookup from a venue's funding-rate list, last write
wins (the Go `for _, r := range rates { m[r.Market] = r.Rate }` loop). -/
def buildRatesMap (rates : List FundingRate) : List (String × ℚ) :=
  rates.foldl (fun m r => setAssoc r.market r.rate m) []

/-- `checkFundingRates`, one full evaluation cycle: it takes the two venues'
funding-rate fetch results as inputs (the network fetches themselves being
I/O); either fetch failure aborts the whole cycle, otherwise each configured
market is processed in input order, threading the state and accumulating
the event trace. -/
def checkFundingRates (s : Strategy) (env : Env)
    (ratesRes1 ratesRes2 : Except String (List FundingRate)) :
    Strategy × List Event :=
  match ratesRes1 with
  | .error _ => (s, [])
  | .ok rates1 =>
    match ratesRes2 with
    | .error _ => (s, [])
    | .ok rates2 =>
      let rates1Map := buildRatesMap rates1
      let rates2Map := buildRatesMap rates2
      s.config.markets.foldl
        (fun acc market =>
          let r := processMarket acc.1 env rates1Map rates2Map market
          (r.1, acc.2 ++ r.2))
        (s, [])

/-- Reachable strategy states: a freshly constructed strategy, closed under
full evaluation cycles with arbitrary environments and fetch results. -/
inductive Reachable : Strategy → Prop
  | init (cfg : Config) (ex1 ex2 : Venue) : Reachable (newFundingRateArb cfg ex1 ex2)
  | step (s : Strategy) (env : Env) (r1 r2 : Except String (List FundingRate)) :
      Reachable s → Reachable (checkFundingRates s env r1 r2).1

/-! Concrete sample data used to evaluate the theorems on closed inputs. -/

/-- Sample venue standing for the first wired exchange. -/
def venueA : Venue := ⟨"Lighter"⟩

/-- Sample venue standing for the second wired exchange. -/
def venueB : Venue := ⟨"Extended"⟩

/-- A concrete order acknowledgement. -/
def sampleOrder : Order :=
  { id := "1", orderMarket := "BTC-USD", side := .buy, orderType := .market,
    price := 60000, amount := 1, filled := 1, status := "FILLED", timestamp := 0 }

/-- Environment in which every venue call succeeds. -/
def envOk : Env :=
  { placeOrder := fun _ _ _ _ _ _ => .ok sampleOrder,
    closePosition := fun _ _ _ _ => .ok sampleOrder }

/-- Environment in which every order placement fails. -/
def envFailPlace : Env :=
  { placeOrder := fun _ _ _ _ _ _ => .error "rejected",
    closePosition := fun _ _ _ _ => .ok sampleOrder }

/-- Environment in which the short (sell) placement fails but the long
placement succeeds. -/
def envFailShort : Env :=
  { placeOrder := fun _ _ side _ _ _ =>
      match side with
      | .buy => .ok sampleOrder
      | .sell => .error "rejected",
    closePosition := fun _ _ _ _ => .ok sampleOrder }

/-- Sample configuration: one market, threshold 0.0001, position size 20 USD,
exposure cap 100 USD. -/
def cfg0 : Config :=
  { testnet := true, markets := ["BTC-USD"], minFundingRateDiff := 1/10000,
    positionSizeUSD := 20, maxPositionUSD := 100 }

/-- Fresh sample strategy over `cfg0`. -/
def strat0 : Strategy := newFundingRateArb cfg0 venueA venueB

/-- A 90-USD position on ETH-USD (for the exposure-cap scenario). -/
def posEth90 : PositionInfo :=
  { market := "ETH-USD", longExchange := venueB, shortExchange := venueA, sizeUSD := 90 }

/-- Sample strategy whose ledger already carries 90 USD of exposure. -/
def strat90 : Strategy := { strat0 with positions := [("ETH-USD", posEth90)] }

/-- A 20-USD position on BTC-USD, long on the second venue and short on the
first. -/
def posBtc : PositionInfo :=
  { market := "BTC-USD", longExchange := venueB, shortExchange := venueA, sizeUSD := 20 }

/-- Sample strategy holding `posBtc` in its ledger. -/
def stratBtc : Strategy := { strat0 with positions := [("BTC-USD", posBtc)] }

/-- A position on a market with no reference price. -/
def posSol : PositionInfo :=
  { market := "SOL-USD", longExchange := venueB, shortExchange := venueA, sizeUSD := 20 }

/-- Sample strategy holding `posSol` in its ledger. -/
def stratSol : Strategy := { strat0 with positions := [("SOL-USD", posSol)] }

/-- Sample venue-A rate lookup: BTC-USD at 0.0005. -/
def ratesMapA : List (String × ℚ) := [("BTC-USD", 5/10000)]

/-- Sample venue-B rate lookup: BTC-USD at 0.0001. -/
def ratesMapB : List (String × ℚ) := [("BTC-USD", 1/10000)]

/-- Sample venue-B rate lookup putting the pair exactly at the threshold
(diff 0.0001 against `ratesMapA`). -/
def ratesMapBThr : List (String × ℚ) := [("BTC-USD", 4/10000)]

/-- Sample venue-A rate lookup making the differential negative
(diff -0.0002 against `ratesMapB`). -/
def ratesMapALow : List (String × ℚ) := [("BTC-USD", -1/10000)]

/-! Helper lemmas about the association-list operations. -/

theorem getAssoc_eq_none_iff {α : Type} (k : String) :
    ∀ l : List (String × α), getAssoc k l = none ↔ k ∉ l.map Prod.fst := by
  intro l
  induction l with
  | nil => simp [getAssoc]
  | cons hd tl ih =>
    obtain ⟨a, b⟩ := hd
    by_cases h : a = k
    · subst h
      simp [getAssoc]
    · simp [getAssoc, h, ih]
      intro hk
      exact fun he => h he.symm

theorem keys_setAssoc {α : Type} (k : String) (v : α) :
    ∀ l : List (String × α),
      (setAssoc k v l).map Prod.fst =
        if k ∈ l.map Prod.fst then l.map Prod.fst else l.map Prod.fst ++ [k] := by
  intro l
  induction l with
  | nil => simp [setAssoc]
  | cons hd tl ih =>
    obtain ⟨a, b⟩ := hd
    by_cases h : a = k
    · subst h
      simp [setAssoc]
    · have hne : k ≠ a := fun he => h he.symm
      simp only [setAssoc, if_neg h, List.map_cons, ih, List.mem_cons, hne, false_or]
      by_cases h2 : k ∈ tl.map Prod.fst
      · simp [h2]
      · simp [h2]

theorem nodup_keys_setAssoc {α : Type} (k : String) (v : α)
    (l : List (String × α)) (h : (l.map Prod.fst).Nodup) :
    ((setAssoc k v l).map Prod.fst).Nodup := by
  rw [keys_setAssoc]
  by_cases h2 : k ∈ l.map Prod.fst
  · rwa [if_pos h2]
  · rw [if_neg h2]
    simp [List.nodup_append, h, h2]

theorem delAssoc_sublist {α : Type} (k : String) :
    ∀ l : List (String × α), (delAssoc k l).Sublist l := by
  intro l
  induction l with
  | nil => simp [delAssoc]
  | cons hd tl ih =>
    obtain ⟨a, b⟩ := hd
    by_cases h : a = k
    · simp only [delAssoc, if_pos h]
      exact List.sublist_cons_self _ _
    · simp only [delAssoc, if_neg h]
      exact ih.cons₂ _

theorem nodup_keys_delAssoc {α : Type} (k : String)
    (l : List (String × α)) (h : (l.map Prod.fst).Nodup) :
    ((delAssoc k l).map Prod.fst).Nodup :=
  h.sublist ((delAssoc_sublist k l).map Prod.fst)

theorem sumSizes_setAssoc_of_absent (k : String) (v : PositionInfo) :
    ∀ l : List (String × PositionInfo), getAssoc k l = none →
      sumSizes (setAssoc k v l) = sumSizes l + v.sizeUSD := by
  intro l
  induction l with
  | nil => intro _; simp [setAssoc, sumSizes]
  | cons hd tl ih =>
    obtain ⟨a, b⟩ := hd
    intro hnone
    by_cases h : a = k
    · subst h
      simp [getAssoc] at hnone
    · simp only [getAssoc, if_neg h] at hnone
      simp only [setAssoc, if_neg h, sumSizes, ih hnone]
      ring

/-! Characterization lemmas for the two coordinator sequences. -/

theorem executeArbitrage_skip_existing (s : Strategy) (env : Env) (market : String)
    (longEx shortEx : Venue) (rateDiff : ℚ) (p : PositionInfo)
    (hpos : getAssoc market s.positions = some p) :
    executeArbitrage s env market longEx shortEx rateDiff = (s, []) := by
  unfold executeArbitrage
  rw [hpos]

theorem executeArbitrage_cases (s : Strategy) (env : Env) (market : String)
    (longEx shortEx : Venue) (rateDiff : ℚ) :
    (executeArbitrage s env market longEx shortEx rateDiff).1 = s ∨
    (getAssoc market s.positions = none ∧
     getTotalPositionValue s + s.config.positionSizeUSD ≤ s.config.maxPositionUSD ∧
     (executeArbitrage s env market longEx shortEx rateDiff).1.config = s.config ∧
     (executeArbitrage s env market longEx shortEx rateDiff).1.positions =
       setAssoc market (PositionInfo.mk market longEx shortEx s.config.positionSizeUSD)
         s.positions) := by
  unfold executeArbitrage
  cases hpos : getAssoc market s.positions with
  | some p => left; rfl
  | none =>
    by_cases hcap : getTotalPositionValue s + s.config.positionSizeUSD > s.config.maxPositionUSD
    · rw [if_pos hcap]; left; rfl
    · rw [if_neg hcap]
      cases hpr : placeholderPrice market with
      | none => left; rfl
      | some pr =>
        dsimp only
        cases hlong : env.placeOrder longEx market .buy .market
            (s.config.positionSizeUSD / pr) pr with
        | error e1 => left; rfl
        | ok o1 =>
          cases hshort : env.placeOrder shortEx market .sell .market
              (s.config.positionSizeUSD / pr) pr with
          | error e2 => left; rfl
          | ok o2 =>
            right
            exact ⟨rfl, le_of_not_lt hcap, rfl, rfl⟩

theorem closeArbitrage_absent (s : Strategy) (env : Env) (p : PositionInfo)
    (h : getAssoc p.market s.positions = none) :
    closeArbitrage s env p = (s, []) := by
  unfold closeArbitrage
  rw [h]

theorem closeArbitrage_present_state (s : Strategy) (env : Env) (p q : PositionInfo)
    (h : getAssoc p.market s.positions = some q) :
    (closeArbitrage s env p).1.config = s.config ∧
    (closeArbitrage s env p).1.positions = delAssoc p.market s.positions := by
  unfold closeArbitrage
  rw [h]
  dsimp only
  cases hpr : placeholderPrice p.market with
  | none => exact ⟨rfl, rfl⟩
  | some cp => exact ⟨rfl, rfl⟩

theorem closeArbitrage_cases (s : Strategy) (env : Env) (p : PositionInfo) :
    (closeArbitrage s env p).1.positions = s.positions ∨
    (closeArbitrage s env p).1.positions = delAssoc p.market s.positions := by
  cases h : getAssoc p.market s.positions with
  | none => rw [closeArbitrage_absent s env p h]; left; rfl
  | some q => right; exact (closeArbitrage_present_state s env p q h).2

theorem closeArbitrage_no_placeOrder (s : Strategy) (env : Env) (p : PositionInfo) :
    ∀ e ∈ (closeArbitrage s env p).2, isPlaceOrderEvent e = false := by
  unfold closeArbitrage
  cases h : getAssoc p.market s.positions with
  | none => simp
  | some q =>
    dsimp only
    cases hpr : placeholderPrice p.market with
    | none => simp
    | some cp =>
      intro e he
      simp only [List.mem_cons, List.not_mem_nil, or_false] at he
      rcases he with rfl | rfl | rfl | rfl <;> rfl

theorem nodup_keys_executeArbitrage (s : Strategy) (env : Env) (market : String)
    (longEx shortEx : Venue) (rateDiff : ℚ)
    (h : (s.positions.map Prod.fst).Nodup) :
    (((executeArbitrage s env market longEx shortEx rateDiff).1.positions).map
      Prod.fst).Nodup := by
  rcases executeArbitrage_cases s env market longEx shortEx rateDiff with h1 | ⟨-, -, -, h1⟩
  · rw [h1]; exact h
  · rw [h1]; exact nodup_keys_setAssoc _ _ _ h

theorem nodup_keys_closeArbitrage (s : Strategy) (env : Env) (p : PositionInfo)
    (h : (s.positions.map Prod.fst).Nodup) :
    (((closeArbitrage s env p).1.positions).map Prod.fst).Nodup := by
  rcases closeArbitrage_cases s env p with h1 | h1
  · rw [h1]; exact h
  · rw [h1]; exact nodup_keys_delAssoc _ _ h

theorem nodup_keys_processMarket (s : Strategy) (env : Env)
    (rates1Map rates2Map : List (String × ℚ)) (market : String)
    (h : (s.positions.map Prod.fst).Nodup) :
    (((processMarket s env rates1Map rates2Map market).1.positions).map
      Prod.fst).Nodup := by
  unfold processMarket
  cases h1 : getAssoc market rates1Map with
  | none => exact h
  | some rate1 =>
    cases h2 : getAssoc market rates2Map with
    | none => exact h
    | some rate2 =>
      dsimp only
      cases hpos : getAssoc market s.positions with
      | none =>
        by_cases hthr : |rate1 - rate2| > s.config.minFundingRateDiff
        · rw [if_pos hthr]
          by_cases hsgn : rate1 - rate2 > 0
          · rw [if_pos hsgn]; exact nodup_keys_executeArbitrage _ _ _ _ _ _ h
          · rw [if_neg hsgn]; exact nodup_keys_executeArbitrage _ _ _ _ _ _ h
        · rw [if_neg hthr]; exact h
      | some position =>
        dsimp only
        by_cases hcl : (position.shortExchange.name = s.exchange1.name ∧
            rate1 - rate2 ≤ 0) ∨
            (position.shortExchange.name = s.exchange2.name ∧ rate1 - rate2 ≥ 0)
        · rw [if_pos hcl]; exact nodup_keys_closeArbitrage _ _ _ h
        · rw [if_neg hcl]; exact h

theorem nodup_keys_cycleFold (env : Env) (rates1Map rates2Map : List (String × ℚ)) :
    ∀ (markets : List String) (acc : Strategy × List Event),
      ((acc.1.positions.map Prod.fst).Nodup) →
      (((markets.foldl
          (fun acc market =>
            let r := processMarket acc.1 env rates1Map rates2Map market
            (r.1, acc.2 ++ r.2))
          acc).1.positions).map Prod.fst).Nodup := by
  intro markets
  induction markets with
  | nil => intro acc h; exact h
  | cons m rest ih =>
    intro acc h
    exact ih _ (nodup_keys_processMarket _ _ _ _ _ h)

theorem nodup_keys_checkFundingRates (s : Strategy) (env : Env)
    (r1 r2 : Except String (List FundingRate))
    (h : (s.positions.map Prod.fst).Nodup) :
    (((checkFundingRates s env r1 r2).1.positions).map Prod.fst).Nodup := by
  unfold checkFundingRates
  cases r1 with
  | error e => exact h
  | ok rates1 =>
    cases r2 with
    | error e => exact h
    | ok rates2 =>
      exact nodup_keys_cycleFold env _ _ s.config.markets (s, []) h

/-! The spec's claims. -/

/-- Claim C6: if either venue's funding-rate fetch returns an error, the whole
cycle aborts: no markets are evaluated, no orders are placed, and the ledger
state is unchanged. -/
theorem fetch_failure_aborts_cycle (s : Strategy) (env : Env)
    (r1 r2 : Except String (List FundingRate)) (e : String)
    (h : r1 = Except.error e ∨ r2 = Except.error e) :
    checkFundingRates s env r1 r2 = (s, []) := by
  rcases h with h | h
  · subst h; rfl
  · subst h
    cases r1 with
    | error e1 => rfl
    | ok rates1 => rfl

/-- Witness for C6 at a concrete failing fetch. -/
theorem fetch_failure_aborts_cycle_witness :
    checkFundingRates strat0 envOk (Except.error "boom") (Except.ok []) =
      (strat0, []) :=
  fetch_failure_aborts_cycle strat0 envOk (Except.error "boom") (Except.ok [])
    "boom" (Or.inl rfl)

/-- Claim C2: an opening attempt whose configured size would push total
exposure strictly past `maxPositionUSD` aborts with no orders and an unchanged
ledger; consequently, whenever an open actually changes the ledger, the
resulting total exposure is at most `maxPositionUSD`. -/
theorem exposure_cap_enforced (s : Strategy) (env : Env) (market : String)
    (longEx shortEx : Venue) (rateDiff : ℚ) :
    (getTotalPositionValue s + s.config.positionSizeUSD > s.config.maxPositionUSD →
      executeArbitrage s env market longEx shortEx rateDiff = (s, [])) ∧
    ((executeArbitrage s env market longEx shortEx rateDiff).1.positions ≠ s.positions →
      getTotalPositionValue (executeArbitrage s env market longEx shortEx rateDiff).1 ≤
        (executeArbitrage s env market longEx shortEx rateDiff).1.config.maxPositionUSD) := by
  constructor
  · intro hover
    unfold executeArbitrage
    cases hpos : getAssoc market s.positions with
    | some p => rfl
    | none => rw [if_pos hover]
  · intro hne
    rcases executeArbitrage_cases s env market longEx shortEx rateDiff with
      h1 | ⟨habs, hcap, hcfg, hpos⟩
    · exact absurd (congrArg Strategy.positions h1) hne
    · rw [getTotalPositionValue, hpos, hcfg,
        sumSizes_setAssoc_of_absent market _ s.positions habs]
      exact hcap

/-- Witness for C2: Scenario D — exposure 90, position size 20, cap 100:
the open is rejected with zero orders and the ledger unchanged. -/
theorem exposure_cap_enforced_witness :
    executeArbitrage strat90 envOk "BTC-USD" venueB venueA (4/10000) =
      (strat90, []) :=
  (exposure_cap_enforced strat90 envOk "BTC-USD" venueB venueA (4/10000)).1
    (by norm_num [getTotalPositionValue, sumSizes, strat90, strat0,
      newFundingRateArb, cfg0, posEth90])

/-- Claim C8: a close first checks the entry still exists (absent entry means
a silent no-op with no calls); when it proceeds, the entry is removed from the
ledger regardless of either leg's outcome, and both legs' close calls are
issued independently of each other's result. -/
theorem closing_sequence (s : Strategy) (env : Env) (p : PositionInfo) :
    (getAssoc p.market s.positions = none → closeArbitrage s env p = (s, [])) ∧
    (∀ q, getAssoc p.market s.positions = some q →
      (closeArbitrage s env p).1.positions = delAssoc p.market s.positions) ∧
    (∀ q currentPrice, getAssoc p.market s.positions = some q →
      placeholderPrice p.market = some currentPrice →
      (closeArbitrage s env p).2 =
        [Event.closePosition p.longExchange p.market .buy (p.sizeUSD / currentPrice),
         Event.notify "CLOSE LONG" p.longExchange.name p.market p.sizeUSD
           (exceptOk (env.closePosition p.longExchange p.market .buy
             (p.sizeUSD / currentPrice))),
         Event.closePosition p.shortExchange p.market .sell (p.sizeUSD / currentPrice),
         Event.notify "CLOSE SHORT" p.shortExchange.name p.market p.sizeUSD
           (exceptOk (env.closePosition p.shortExchange p.market .sell
             (p.sizeUSD / currentPrice)))]) := by
  refine ⟨closeArbitrage_absent s env p, ?_, ?_⟩
  · intro q hq
    exact (closeArbitrage_present_state s env p q hq).2
  · intro q cp hq hpr
    unfold closeArbitrage
    rw [hq]
    dsimp only
    rw [hpr]

/-- Witness for C8 at a concrete open position: the ledger entry is removed
and both close legs are attempted. -/
theorem closing_sequence_witness :
    (closeArbitrage stratBtc envOk posBtc).1.positions =
      delAssoc "BTC-USD" stratBtc.positions ∧
    (closeArbitrage stratBtc envOk posBtc).2 =
      [Event.closePosition venueB "BTC-USD" .buy (posBtc.sizeUSD / 60000),
       Event.notify "CLOSE LONG" "Extended" "BTC-USD" posBtc.sizeUSD true,
       Event.closePosition venueA "BTC-USD" .sell (posBtc.sizeUSD / 60000),
       Event.notify "CLOSE SHORT" "Lighter" "BTC-USD" posBtc.sizeUSD true] :=
  ⟨(closing_sequence stratBtc envOk posBtc).2.1 posBtc rfl,
   (closing_sequence stratBtc envOk posBtc).2.2 posBtc 60000 rfl rfl⟩

/-- Claim C10: closing a position on a market with no reference price removes
the ledger entry but issues no close call on either venue; and the markets
without a reference price are exactly those other than BTC-USD and ETH-USD. -/
theorem close_pricing_gap (s : Strategy) (env : Env) (p q : PositionInfo)
    (hpos : getAssoc p.market s.positions = some q)
    (hnp : placeholderPrice p.market = none) :
    ((closeArbitrage s env p).1.config = s.config ∧
     (closeArbitrage s env p).1.positions = delAssoc p.market s.positions ∧
     (closeArbitrage s env p).2 = []) ∧
    (∀ m, placeholderPrice m = none ↔ (m ≠ "BTC-USD" ∧ m ≠ "ETH-USD")) := by
  constructor
  · refine ⟨(closeArbitrage_present_state s env p q hpos).1,
      (closeArbitrage_present_state s env p q hpos).2, ?_⟩
    unfold closeArbitrage
    rw [hpos]
    dsimp only
    rw [hnp]
  · intro m
    unfold placeholderPrice
    by_cases h1 : m = "BTC-USD"
    · simp [h1]
    · by_cases h2 : m = "ETH-USD" <;> simp [h1, h2]

/-- Witness for C10: closing a SOL-USD position removes the entry and issues
no calls. -/
theorem close_pricing_gap_witness :
    (closeArbitrage stratSol envOk posSol).1.positions =
      delAssoc "SOL-USD" stratSol.positions ∧
    (closeArbitrage stratSol envOk posSol).2 = [] :=
  ⟨((close_pricing_gap stratSol envOk posSol posSol rfl rfl).1).2.1,
   ((close_pricing_gap stratSol envOk posSol posSol rfl rfl).1).2.2⟩

/-- Claim C1: every reachable state's ledger has at most one entry per market
(its key list is duplicate-free); the coordinator's duplicate-open guard makes
`executeArbitrage` a strict no-op when a position already exists for the
market; and the evaluator issues no order placement for a market it observes
an existing position on. -/
theorem at_most_one_position_per_market :
    (∀ s : Strategy, Reachable s → (s.positions.map Prod.fst).Nodup) ∧
    (∀ (s : Strategy) (env : Env) (market : String) (longEx shortEx : Venue)
        (rateDiff : ℚ) (p : PositionInfo),
      getAssoc market s.positions = some p →
      executeArbitrage s env market longEx shortEx rateDiff = (s, [])) ∧
    (∀ (s : Strategy) (env : Env) (rates1Map rates2Map : List (String × ℚ))
        (market : String) (p : PositionInfo),
      getAssoc market s.positions = some p →
      ∀ e ∈ (processMarket s env rates1Map rates2Map market).2,
        isPlaceOrderEvent e = false) := by
  refine ⟨?_, ?_, ?_⟩
  · intro s hreach
    induction hreach with
    | init cfg ex1 ex2 => simp [newFundingRateArb]
    | step s env r1 r2 hr ih => exact nodup_keys_checkFundingRates s env r1 r2 ih
  · intro s env market longEx shortEx rateDiff p hpos
    exact executeArbitrage_skip_existing s env market longEx shortEx rateDiff p hpos
  · intro s env rates1Map rates2Map market p hpos e he
    revert he
    unfold processMarket
    cases h1 : getAssoc market rates1Map with
    | none => simp
    | some rate1 =>
      cases h2 : getAssoc market rates2Map with
      | none => simp
      | some rate2 =>
        dsimp only
        rw [hpos]
        dsimp only
        by_cases hcl : (p.shortExchange.name = s.exchange1.name ∧
            rate1 - rate2 ≤ 0) ∨
            (p.shortExchange.name = s.exchange2.name ∧ rate1 - rate2 ≥ 0)
        · rw [if_pos hcl]
          exact closeArbitrage_no_placeOrder s env p e
        · rw [if_neg hcl]
          simp

/-- Witness for C1: the initial ledger's keys are duplicate-free, and an open
attempt on a market holding a position is a no-op with no orders. -/
theorem at_most_one_position_per_market_witness :
    (strat0.positions.map Prod.fst).Nodup ∧
    executeArbitrage stratBtc envOk "BTC-USD" venueB venueA (4/10000) =
      (stratBtc, []) :=
  ⟨at_most_one_position_per_market.1 strat0 (Reachable.init cfg0 venueA venueB),
   at_most_one_position_per_market.2.1 stratBtc envOk "BTC-USD" venueB venueA
     (4/10000) posBtc rfl⟩

/-- Claim C3: with `diff = rate1 - rate2` over the two lookups, a triggered
open places the long leg on venue 2 and the short leg on venue 1 when
`diff > 0`, and the long leg on venue 1 and the short leg on venue 2 when
`diff < 0`; the magnitude handed to the coordinator is `|diff|`. -/
theorem direction_law (s : Strategy) (env : Env)
    (rates1Map rates2Map : List (String × ℚ)) (market : String) (rate1 rate2 : ℚ)
    (h1 : getAssoc market rates1Map = some rate1)
    (h2 : getAssoc market rates2Map = some rate2)
    (hnopos : getAssoc market s.positions = none)
    (hthr : |rate1 - rate2| > s.config.minFundingRateDiff) :
    (rate1 - rate2 > 0 →
      processMarket s env rates1Map rates2Map market =
        executeArbitrage s env market s.exchange2 s.exchange1 |rate1 - rate2|) ∧
    (rate1 - rate2 < 0 →
      processMarket s env rates1Map rates2Map market =
        executeArbitrage s env market s.exchange1 s.exchange2 |rate1 - rate2|) := by
  constructor
  · intro hsgn
    unfold processMarket
    rw [h1, h2]
    dsimp only
    rw [hnopos]
    dsimp only
    rw [if_pos hthr, if_pos hsgn, abs_of_pos hsgn]
  · intro hsgn
    unfold processMarket
    rw [h1, h2]
    dsimp only
    rw [hnopos]
    dsimp only
    rw [if_pos hthr, if_neg (not_lt.mpr (le_of_lt hsgn)), abs_of_neg hsgn]

/-- Witness for C3: Scenario A — rates 0.0005 vs 0.0001, threshold 0.0001:
the open goes long on venue 2 and short on venue 1 with magnitude 0.0004. -/
theorem direction_law_witness :
    processMarket strat0 envOk ratesMapA ratesMapB "BTC-USD" =
      executeArbitrage strat0 envOk "BTC-USD" venueB venueA
        |(5/10000 : ℚ) - 1/10000| :=
  (direction_law strat0 envOk ratesMapA ratesMapB "BTC-USD" (5/10000) (1/10000)
    rfl rfl rfl
    (by rw [abs_of_pos] <;> norm_num [strat0, newFundingRateArb, cfg0])).1
    (by norm_num)

/-- Claim C4: an open is triggered iff no position exists for the market and
`|diff|` strictly exceeds `minFundingRateDiff`; an exactly-at-threshold
differential triggers nothing, and an existing position never leads to order
placements. -/
theorem open_trigger_law (s : Strategy) (env : Env)
    (rates1Map rates2Map : List (String × ℚ)) (market : String) (rate1 rate2 : ℚ)
    (h1 : getAssoc market rates1Map = some rate1)
    (h2 : getAssoc market rates2Map = some rate2) :
    (getAssoc market s.positions = none →
      |rate1 - rate2| > s.config.minFundingRateDiff →
      processMarket s env rates1Map rates2Map market =
        (if rate1 - rate2 > 0 then
          executeArbitrage s env market s.exchange2 s.exchange1 (rate1 - rate2)
        else
          executeArbitrage s env market s.exchange1 s.exchange2 (-(rate1 - rate2)))) ∧
    (getAssoc market s.positions = none →
      |rate1 - rate2| ≤ s.config.minFundingRateDiff →
      processMarket s env rates1Map rates2Map market = (s, [])) ∧
    (∀ p, getAssoc market s.positions = some p →
      ∀ e ∈ (processMarket s env rates1Map rates2Map market).2,
        isPlaceOrderEvent e = false) := by
  refine ⟨?_, ?_, ?_⟩
  · intro hnopos hthr
    unfold processMarket
    rw [h1, h2]
    dsimp only
    rw [hnopos]
    dsimp only
    rw [if_pos hthr]
  · intro hnopos hthr
    unfold processMarket
    rw [h1, h2]
    dsimp only
    rw [hnopos]
    dsimp only
    rw [if_neg (not_lt.mpr hthr)]
  · intro p hpos e he
    revert he
    unfold processMarket
    rw [h1, h2]
    dsimp only
    rw [hpos]
    dsimp only
    by_cases hcl : (p.shortExchange.name = s.exchange1.name ∧
        rate1 - rate2 ≤ 0) ∨
        (p.shortExchange.name = s.exchange2.name ∧ rate1 - rate2 ≥ 0)
    · rw [if_pos hcl]
      exact closeArbitrage_no_placeOrder s env p e
    · rw [if_neg hcl]
      simp

/-- Witness for C4: an exactly-at-threshold differential (0.0001 against a
0.0001 threshold) on a market with no position triggers nothing. -/
theorem open_trigger_law_witness :
    processMarket strat0 envOk ratesMapA ratesMapBThr "BTC-USD" = (strat0, []) :=
  (open_trigger_law strat0 envOk ratesMapA ratesMapBThr "BTC-USD" (5/10000)
    (4/10000) rfl rfl).2.1 rfl
    (by rw [abs_of_pos] <;> norm_num [strat0, newFundingRateArb, cfg0])

/-- Claim C5: with an existing position, a close is triggered iff the
differential is no longer favorable for the venue holding the short leg:
`diff ≤ 0` when the short leg is on venue 1, `diff ≥ 0` when it is on
venue 2 — the boundary includes exact equality. -/
theorem close_trigger_law (s : Strategy) (env : Env)
    (rates1Map rates2Map : List (String × ℚ)) (market : String) (rate1 rate2 : ℚ)
    (p : PositionInfo)
    (h1 : getAssoc market rates1Map = some rate1)
    (h2 : getAssoc market rates2Map = some rate2)
    (hpos : getAssoc market s.positions = some p) :
    ((p.shortExchange.name = s.exchange1.name ∧ rate1 - rate2 ≤ 0) ∨
     (p.shortExchange.name = s.exchange2.name ∧ rate1 - rate2 ≥ 0) →
      processMarket s env rates1Map rates2Map market = closeArbitrage s env p) ∧
    (¬((p.shortExchange.name = s.exchange1.name ∧ rate1 - rate2 ≤ 0) ∨
       (p.shortExchange.name = s.exchange2.name ∧ rate1 - rate2 ≥ 0)) →
      processMarket s env rates1Map rates2Map market = (s, [])) := by
  constructor
  · intro hcond
    unfold processMarket
    rw [h1, h2]
    dsimp only
    rw [hpos]
    dsimp only
    rw [if_pos hcond]
  · intro hcond
    unfold processMarket
    rw [h1, h2]
    dsimp only
    rw [hpos]
    dsimp only
    rw [if_neg hcond]

/-- Witness for C5: Scenario B — short leg on venue 1, differential now
-0.0002: the close fires. -/
theorem close_trigger_law_witness :
    processMarket stratBtc envOk ratesMapALow ratesMapB "BTC-USD" =
      closeArbitrage stratBtc envOk posBtc :=
  (close_trigger_law stratBtc envOk ratesMapALow ratesMapB "BTC-USD"
    (-1/10000) (1/10000) posBtc rfl rfl rfl).1
    (Or.inl ⟨rfl, by norm_num⟩)

/-- Claim C7: leg atomicity of opening.  Once the guards pass: a failed long
leg aborts with no short-leg attempt and no ledger entry; a failed short leg
after a successful long leg leaves the ledger unchanged and issues no further
orders (the long leg is not reversed); and a ledger entry is inserted exactly
when both legs succeed. -/
theorem open_leg_atomicity (s : Strategy) (env : Env) (market : String)
    (longEx shortEx : Venue) (rateDiff currentPrice : ℚ)
    (hnopos : getAssoc market s.positions = none)
    (hcap : getTotalPositionValue s + s.config.positionSizeUSD ≤ s.config.maxPositionUSD)
    (hprice : placeholderPrice market = some currentPrice) :
    (∀ e1, env.placeOrder longEx market .buy .market
        (s.config.positionSizeUSD / currentPrice) currentPrice = .error e1 →
      executeArbitrage s env market longEx shortEx rateDiff =
        (s, [Event.placeOrder longEx market .buy
               (s.config.positionSizeUSD / currentPrice) currentPrice,
             Event.notify "OPEN LONG" longEx.name market
               s.config.positionSizeUSD false])) ∧
    (∀ o1 e2, env.placeOrder longEx market .buy .market
        (s.config.positionSizeUSD / currentPrice) currentPrice = .ok o1 →
      env.placeOrder shortEx market .sell .market
        (s.config.positionSizeUSD / currentPrice) currentPrice = .error e2 →
      executeArbitrage s env market longEx shortEx rateDiff =
        (s, [Event.placeOrder longEx market .buy
               (s.config.positionSizeUSD / currentPrice) currentPrice,
             Event.notify "OPEN LONG" longEx.name market
               s.config.positionSizeUSD true,
             Event.placeOrder shortEx market .sell
               (s.config.positionSizeUSD / currentPrice) currentPrice,
             Event.notify "OPEN SHORT" shortEx.name market
               s.config.positionSizeUSD false])) ∧
    (∀ o1 o2, env.placeOrder longEx market .buy .market
        (s.config.positionSizeUSD / currentPrice) currentPrice = .ok o1 →
      env.placeOrder shortEx market .sell .market
        (s.config.positionSizeUSD / currentPrice) currentPrice = .ok o2 →
      (executeArbitrage s env market longEx shortEx rateDiff).1.positions =
        setAssoc market (PositionInfo.mk market longEx shortEx
          s.config.positionSizeUSD) s.positions ∧
      (executeArbitrage s env market longEx shortEx rateDiff).2 =
        [Event.placeOrder longEx market .buy
           (s.config.positionSizeUSD / currentPrice) currentPrice,
         Event.notify "OPEN LONG" longEx.name market
           s.config.positionSizeUSD true,
         Event.placeOrder shortEx market .sell
           (s.config.positionSizeUSD / currentPrice) currentPrice,
         Event.notify "OPEN SHORT" shortEx.name market
           s.config.positionSizeUSD true]) := by
  refine ⟨?_, ?_, ?_⟩
  · intro e1 hlong
    unfold executeArbitrage
    rw [hnopos, if_neg (not_lt.mpr hcap), hprice]
    dsimp only
    rw [hlong]
    rfl
  · intro o1 e2 hlong hshort
    unfold executeArbitrage
    rw [hnopos, if_neg (not_lt.mpr hcap), hprice]
    dsimp only
    rw [hlong]
    dsimp only
    rw [hshort]
    rfl
  · intro o1 o2 hlong hshort
    unfold executeArbitrage
    rw [hnopos, if_neg (not_lt.mpr hcap), hprice]
    dsimp only
    rw [hlong]
    dsimp only
    rw [hshort]
    exact ⟨rfl, rfl⟩

/-- Witness for C7: Scenario E — the long-leg placement fails, so the short
leg is never attempted and the ledger stays empty. -/
theorem open_leg_atomicity_witness :
    executeArbitrage strat0 envFailPlace "BTC-USD" venueB venueA (4/10000) =
      (strat0, [Event.placeOrder venueB "BTC-USD" .buy
                  (strat0.config.positionSizeUSD / 60000) 60000,
                Event.notify "OPEN LONG" "Extended" "BTC-USD"
                  strat0.config.positionSizeUSD false]) :=
  (open_leg_atomicity strat0 envFailPlace "BTC-USD" venueB venueA (4/10000)
    60000 rfl
    (by norm_num [getTotalPositionValue, sumSizes, strat0, newFundingRateArb, cfg0])
    rfl).1 "rejected" rfl

/-- Claim C9: an opening attempt on a market with no reference price aborts
with no orders and an unchanged ledger; when a price is available, every order
placed carries amount `positionSizeUSD / referencePrice`. -/
theorem open_pricing (s : Strategy) (env : Env) (market : String)
    (longEx shortEx : Venue) (rateDiff : ℚ)
    (hnopos : getAssoc market s.positions = none)
    (hcap : getTotalPositionValue s + s.config.positionSizeUSD ≤ s.config.maxPositionUSD) :
    (placeholderPrice market = none →
      executeArbitrage s env market longEx shortEx rateDiff = (s, [])) ∧
    (∀ pr, placeholderPrice market = some pr →
      ∀ v m sd a p2, Event.placeOrder v m sd a p2 ∈
          (executeArbitrage s env market longEx shortEx rateDiff).2 →
        a = s.config.positionSizeUSD / pr) := by
  constructor
  · intro hnp
    unfold executeArbitrage
    rw [hnopos, if_neg (not_lt.mpr hcap), hnp]
  · intro pr hpr v m sd a p2 hmem
    revert hmem
    unfold executeArbitrage
    rw [hnopos, if_neg (not_lt.mpr hcap), hpr]
    dsimp only
    cases hlong : env.placeOrder longEx market .buy .market
        (s.config.positionSizeUSD / pr) pr with
    | error e1 =>
      intro hmem
      rcases List.mem_cons.mp hmem with h | hmem
      · injection h
      rcases List.mem_cons.mp hmem with h | hmem
      · exact Event.noConfusion h
      · exact absurd hmem (List.not_mem_nil _)
    | ok o1 =>
      dsimp only
      cases hshort : env.placeOrder shortEx market .sell .market
          (s.config.positionSizeUSD / pr) pr with
      | error e2 =>
        intro hmem
        rcases List.mem_cons.mp hmem with h | hmem
        · injection h
        rcases List.mem_cons.mp hmem with h | hmem
        · exact Event.noConfusion h
        rcases List.mem_cons.mp hmem with h | hmem
        · injection h
        rcases List.mem_cons.mp hmem with h | hmem
        · exact Event.noConfusion h
        · exact absurd hmem (List.not_mem_nil _)
      | ok o2 =>
        intro hmem
        rcases List.mem_cons.mp hmem with h | hmem
        · injection h
        rcases List.mem_cons.mp hmem with h | hmem
        · exact Event.noConfusion h
        rcases List.mem_cons.mp hmem with h | hmem
        · injection h
        rcases List.mem_cons.mp hmem with h | hmem
        · exact Event.noConfusion h
        · exact absurd hmem (List.not_mem_nil _)

/-- Witness for C9: opening on SOL-USD (no reference price) is a no-op. -/
theorem open_pricing_witness :
    executeArbitrage strat0 envOk "SOL-USD" venueB venueA (4/10000) =
      (strat0, []) :=
  (open_pricing strat0 envOk "SOL-USD" venueB venueA (4/10000) rfl
    (by norm_num [getTotalPositionValue, sumSizes, strat0, newFundingRateArb,
      cfg0])).1 rfl

end FundingArb
